import Mathlib

/-!
# Verification of the hex-crawl coordinate-geometry engine

A shallow embedding of the repository's geometry code: the axial `Hex`
lattice type with its six unit directions, and the `HexPlane` engine with
its forward map `center`, inverse map `hex` (here `hexAt`), cube-coordinate
rounding `roundHex`, vertex and bounding-box queries, and the viewport
query `getVisible`.

Plane arithmetic is modelled over `ℚ`.  The source hardcodes the decimal
constants `ROOT3 = 1.73205` and `IROOT3 = 0.577350`; these are kept as the
exact rationals written in the source, since several behaviours of the
code depend on the fact that these constants are not exactly `√3` and
`1/√3`.  JavaScript `Math.round` is `fun x => ⌊x + 1/2⌋` (half-up),
`Math.floor`/`Math.ceil` are `⌊⌋`/`⌈⌉`, and `%` on integers is the
truncated remainder (sign of the dividend).
-/

namespace HexCrawl

/-- `const ROOT3 = 1.73205;  // sqrt(3)` -/
def ROOT3 : ℚ := 1.73205

/-- `const IROOT3 = 0.577350; // 1/(sqrt(3))` -/
def IROOT3 : ℚ := 0.577350

/-- JavaScript `Math.round`: round half toward positive infinity. -/
def jsRound (x : ℚ) : ℤ := ⌊x + 1/2⌋

/-- JavaScript `n % 2` for integers: truncated remainder, carrying the
sign of the dividend `n`. -/
def jsRem2 (n : ℤ) : ℤ := if 0 ≤ n then n % 2 else -((-n) % 2)

/-- Plane point `(x, y)` (class `Point`). -/
structure Point where
  x : ℚ
  y : ℚ
deriving DecidableEq, Repr

/-- `Point.add`: componentwise vector addition. -/
def Point.add (p other : Point) : Point := ⟨p.x + other.x, p.y + other.y⟩

/-- Axis-aligned rectangle: origin `(x, y)`, width `w`, height `h`
(class `Rectangle`). -/
structure Rectangle where
  x : ℚ
  y : ℚ
  w : ℚ
  h : ℚ
deriving DecidableEq, Repr

/-- `Rectangle.offset`: a new rectangle displaced by a point. -/
def Rectangle.offset (r : Rectangle) (p : Point) : Rectangle :=
  ⟨r.x + p.x, r.y + p.y, r.w, r.h⟩

/-- Axial hex coordinate with integer `q` (east) and `r` (southeast)
(class `Hex`, its lattice-valued use). -/
structure Hex where
  q : ℤ
  r : ℤ
deriving DecidableEq, Repr

/-- The third, redundant axial hex coordinate: `s = -1 * q - r`. -/
def Hex.s (h : Hex) : ℤ := -1 * h.q - h.r

/-- `Hex.add`: componentwise sum. -/
def Hex.add (h other : Hex) : Hex := ⟨h.q + other.q, h.r + other.r⟩

/-- `Hex.Units`: the six unit offsets, clockwise from east:
E, SE, SW, W, NW, NE. -/
def Hex.units : List Hex :=
  [⟨1, 0⟩, ⟨0, 1⟩, ⟨-1, 1⟩, ⟨-1, 0⟩, ⟨-0, -1⟩, ⟨1, -1⟩]

/-- `Hex.neighbors(i)`: the i-th neighbor, `this.add(Hex.Units[i])`.
Indices outside `[0,6)` are a caller contract violation; the model
defaults them to the zero offset. -/
def Hex.neighbor (h : Hex) (i : ℕ) : Hex := h.add (Hex.units.getD i ⟨0, 0⟩)

/-- `HexPlane.getVertexVectors`: vertices of a hexagon at the origin,
clockwise from northeast; `a` is the half width, `b` the quarter height. -/
def getVertexVectors (hexWidth : ℚ) : List Point :=
  [⟨hexWidth / 2, -(IROOT3 / 2 * hexWidth)⟩,
   ⟨hexWidth / 2, IROOT3 / 2 * hexWidth⟩,
   ⟨0, 2 * (IROOT3 / 2 * hexWidth)⟩,
   ⟨-(hexWidth / 2), IROOT3 / 2 * hexWidth⟩,
   ⟨-(hexWidth / 2), -(IROOT3 / 2 * hexWidth)⟩,
   ⟨0, -(2 * (IROOT3 / 2 * hexWidth))⟩]

/-- `HexPlane.getBoundingBox`: the hex-local bounding rectangle of a hex
of width `hexWidth` centered at the origin; `a` is the half width and
`b = IROOT3 * hexWidth` the half height. -/
def getBoundingBox (hexWidth : ℚ) : Rectangle :=
  ⟨-(hexWidth / 2), -(IROOT3 * hexWidth), hexWidth, 2 * (IROOT3 * hexWidth)⟩

/-- The `HexPlane` instance state: `hexWidth` and the quantities the
constructor derives from it. -/
structure HexPlane where
  hexWidth : ℚ
  hexHeight : ℚ
  rowSeparation : ℚ
  vertexVectors : List Point
  bBox : Rectangle
deriving DecidableEq, Repr

/-- The `HexPlane` constructor: stores `hexWidth` and derives
`hexHeight = (2 * IROOT3) * hexWidth`,
`rowSeparation = (ROOT3 / 2) * hexWidth`, the six vertex vectors and the
hex-local bounding box.  The source performs no validation of
`hexWidth`. -/
def mkHexPlane (hexWidth : ℚ) : HexPlane :=
  ⟨hexWidth, 2 * IROOT3 * hexWidth, ROOT3 / 2 * hexWidth,
   getVertexVectors hexWidth, getBoundingBox hexWidth⟩

/-- Modelled from the spec: the spec (§4.2, §7) says a non-positive
`hexWidth` is rejected at construction, which is code missing from the
source; the spec-side constructor returns no plane for `hexWidth ≤ 0`
and the configured plane otherwise. -/
def mkHexPlaneSpec (hexWidth : ℚ) : Option HexPlane :=
  if hexWidth ≤ 0 then none else some (mkHexPlane hexWidth)

/-- `HexPlane.roundHex` with all three cube coordinates exposed: rounds
each of `(q, r, s)` with `s = -q - r`, measures the deviations
`dq = |rq - q|`, `dr = |rr - q|` (the source compares `rr` against `h.q`),
`ds = |rs - s|`, and recomputes one coordinate from the other two. -/
def roundHexCube (q r : ℚ) : ℤ × ℤ × ℤ :=
  let s : ℚ := -q - r
  let rq := jsRound q
  let rr := jsRound r
  let rs := jsRound s
  let dq := |(rq : ℚ) - q|
  let dr := |(rr : ℚ) - q|
  let ds := |(rs : ℚ) - s|
  if dq > dr ∧ dq > ds then (-rr - rs, rr, rs)
  else if dr > ds then (rq, -rq - rs, rs)
  else (rq, rr, -rq - rr)

/-- `HexPlane.roundHex`: the returned hex `(rq, rr)` (the `rs` component
is dropped). -/
def roundHex (q r : ℚ) : Hex := ⟨(roundHexCube q r).1, (roundHexCube q r).2.1⟩

/-- `HexPlane.center`: `(q, r) => (x, y)`,
`x = (q + r/2) * hexWidth`, `y = r * rowSeparation`. -/
def center (P : HexPlane) (h : Hex) : Point :=
  ⟨((h.q : ℚ) + (h.r : ℚ) / 2) * P.hexWidth, (h.r : ℚ) * P.rowSeparation⟩

/-- `HexPlane.boundingBox`: the stored hex-local box displaced to the
hex's center. -/
def boundingBox (P : HexPlane) (h : Hex) : Rectangle :=
  P.bBox.offset (center P h)

/-- `HexPlane.hex`: the hex containing a point, by inverting the linear
map of `center` (with the source's downward shift of `y` by
`hexWidth * IROOT3`) and rounding. -/
def hexAt (P : HexPlane) (p : Point) : Hex :=
  roundHex
    (IROOT3 / P.hexWidth * (ROOT3 * p.x - (p.y - P.hexWidth * IROOT3)))
    (IROOT3 / P.hexWidth * (2 * (p.y - P.hexWidth * IROOT3)))

/-- `HexPlane.vertices`: the six vertices of a hex,
`center(h) + vertexVectors[i]`. -/
def vertices (P : HexPlane) (h : Hex) : List Point :=
  P.vertexVectors.map (center P h).add

/-- `getVisible` step one: `iMin = floor(2 * r.x / hexWidth)`. -/
def gvIMin (P : HexPlane) (r : Rectangle) : ℤ := ⌊2 * r.x / P.hexWidth⌋

/-- `getVisible` step one: `jMin = floor(1/3 + 2 * r.y * IROOT3 / hexWidth)`. -/
def gvJMin (P : HexPlane) (r : Rectangle) : ℤ :=
  ⌊1/3 + 2 * r.y * IROOT3 / P.hexWidth⌋

/-- `getVisible` step one: `iMax` before correction, from the lower-right
corner `x + w`. -/
def gvIMax (P : HexPlane) (r : Rectangle) : ℤ :=
  ⌊2 * (r.x + r.w) / P.hexWidth⌋

/-- `getVisible` step one: `jMax` before correction, from the lower-right
corner `y + h`. -/
def gvJMax (P : HexPlane) (r : Rectangle) : ℤ :=
  ⌊1/3 + 2 * (r.y + r.h) * IROOT3 / P.hexWidth⌋

/-- `getVisible` step two, the `iMax` correction exactly as written in
the source: `iMax = (iMax - iMin % 2 === 0) ? iMax : iMax + 1`.
By JavaScript precedence the condition is `iMax - (iMin % 2) === 0`. -/
def iMaxFix (iMin iMax : ℤ) : ℤ :=
  if iMax - jsRem2 iMin = 0 then iMax else iMax + 1

/-- `getVisible` step three, the hex emitted for secondary-grid cell
`(i, j)`: `q = ceil((i - j) / 2)`, `r = j`. -/
def hexOfSlice (i j : ℤ) : Hex := ⟨⌈((i - j : ℤ) : ℚ) / 2⌉, j⟩

/-- `HexPlane.getVisible`: iterate `i` from `iMin` to the corrected
`iMax` stepping by 2 and `j` from `jMin` to `jMax + 1`, emitting
`hexOfSlice i j` for each pair, in loop order. -/
def getVisible (P : HexPlane) (r : Rectangle) : List Hex :=
  ((List.range ((iMaxFix (gvIMin P r) (gvIMax P r) - gvIMin P r).fdiv 2 + 1).toNat).product
      (List.range (gvJMax P r + 1 - gvJMin P r + 1).toNat)).map
    fun ab => hexOfSlice (gvIMin P r + 2 * (ab.1 : ℤ)) (gvJMin P r + (ab.2 : ℤ))

/-- Two axis-aligned rectangles overlap: their interiors intersect. -/
def rectOverlap (A B : Rectangle) : Prop :=
  A.x < B.x + B.w ∧ B.x < A.x + A.w ∧ A.y < B.y + B.h ∧ B.y < A.y + A.h

instance (A B : Rectangle) : Decidable (rectOverlap A B) := by
  unfold rectOverlap; infer_instance

end HexCrawl

namespace HexCrawl

/-! ## Helper lemmas -/

/-- JavaScript `% 2` agrees with the euclidean remainder up to a shift
of 2 on negative odd dividends. -/
lemma jsRem2_cases (n : ℤ) : jsRem2 n = n % 2 ∨ jsRem2 n = n % 2 - 2 := by
  unfold jsRem2
  split_ifs <;> omega

/-- Evaluation rule for `roundHexCube` once the three roundings are
known. -/
lemma roundHexCube_eval (q r : ℚ) (rq rr rs : ℤ) (h1 : jsRound q = rq)
    (h2 : jsRound r = rr) (h3 : jsRound (-q - r) = rs) :
    roundHexCube q r =
      if |(rq : ℚ) - q| > |(rr : ℚ) - q| ∧ |(rq : ℚ) - q| > |(rs : ℚ) - (-q - r)| then
        (-rr - rs, rr, rs)
      else if |(rr : ℚ) - q| > |(rs : ℚ) - (-q - r)| then (rq, -rq - rs, rs)
      else (rq, rr, -rq - rr) := by
  unfold roundHexCube
  dsimp only
  rw [h1, h2, h3]

/-! ## C3: the cube-coordinate sum invariant after correction -/

/-- C3: for every fractional input, the three cube coordinates produced
by the rounding routine after its correction step sum to zero exactly,
so the source's `console.assert(rq + rr + rs === 0)` never fails. -/
theorem claimC3_cube_sum_zero (q r : ℚ) :
    (roundHexCube q r).1 + (roundHexCube q r).2.1 + (roundHexCube q r).2.2 = 0 := by
  unfold roundHexCube
  dsimp only
  split_ifs <;> dsimp only <;> ring

/-! ## C9: neighbor symmetry -/

/-- C9: stepping to the i-th neighbor and then to its `(i+3) % 6`-th
neighbor returns to the starting hex, for every direction `i < 6`. -/
theorem claimC9_neighbor_symm (h : Hex) (i : ℕ) (hi : i < 6) :
    (h.neighbor i).neighbor ((i + 3) % 6) = h := by
  obtain ⟨q, r⟩ := h
  interval_cases i <;>
    simp [Hex.neighbor, Hex.add, Hex.units, Hex.mk.injEq]

/-- Witness for C9 at hex (5, -7), direction 2 (southwest). -/
theorem claimC9_neighbor_symm_witness :
    2 < 6 ∧ (Hex.neighbor (Hex.neighbor ⟨5, -7⟩ 2) ((2 + 3) % 6)) = ⟨5, -7⟩ :=
  ⟨by decide, claimC9_neighbor_symm ⟨5, -7⟩ 2 (by decide)⟩

/-! ## C5: the `iMax`/`jMax` correction step -/

/-- C5 counterexample: with `iMin = 0` and `iMax = 2` the span `2 - 0`
is even, yet the source's correction sets `iMax` to 3 (the condition
parses as `iMax - (iMin % 2) === 0`, not as an odd-span test). -/
theorem claimC5_counterexample :
    iMaxFix 0 2 = 3 ∧ (2 - 0 : ℤ) % 2 = 0 := by
  constructor
  · rfl
  · decide

/-- C5 amended: the correction increments `iMax` exactly when
`iMax ≠ iMin % 2` (JS truncated remainder); in particular it does
increment whenever the span is odd, and the extra increments on an even
span never add an iterated column since `i` steps by 2 from `iMin`. -/
theorem claimC5_amended (iMin iMax : ℤ) :
    (Odd (iMax - iMin) → iMaxFix iMin iMax = iMax + 1) ∧
      (iMaxFix iMin iMax = iMax ↔ iMax = jsRem2 iMin) := by
  have h2 := jsRem2_cases iMin
  unfold iMaxFix
  constructor
  · intro hodd
    rw [Int.odd_iff] at hodd
    split_ifs with hc
    · omega
    · rfl
  · split_ifs with hc
    · omega
    · constructor <;> intro h3 <;> omega

/-- Witness for C5 amended at `iMin = 0`, `iMax = 3`. -/
theorem claimC5_amended_witness :
    Odd ((3:ℤ) - 0) ∧ iMaxFix 0 3 = 3 + 1 :=
  ⟨⟨1, by norm_num⟩, (claimC5_amended 0 3).1 ⟨1, by norm_num⟩⟩

end HexCrawl

namespace HexCrawl

/-! ## C6: constructor validation -/

/-- C6 counterexample: at `hexWidth = -1` the source constructor does
not reject; it returns a fully configured plane (negative derived
quantities and all), while the spec-side constructor rejects. -/
theorem claimC6_counterexample :
    mkHexPlaneSpec (-1) = none ∧
      (mkHexPlane (-1)).hexWidth = -1 ∧
      (mkHexPlane (-1)).hexHeight = -1.15470 ∧
      (mkHexPlane (-1)).rowSeparation = -0.866025 := by
  refine ⟨?_, rfl, ?_, ?_⟩ <;>
    norm_num [mkHexPlaneSpec, mkHexPlane, IROOT3, ROOT3]

/-- C6 amended: construction never rejects.  For every non-positive
`hexWidth` the code still returns the plane with all derived fields
(while the spec-modelled constructor returns none). -/
theorem claimC6_amended (w : ℚ) (hw : w ≤ 0) :
    mkHexPlane w =
        ⟨w, 2 * IROOT3 * w, ROOT3 / 2 * w, getVertexVectors w, getBoundingBox w⟩ ∧
      mkHexPlaneSpec w = none := by
  refine ⟨rfl, ?_⟩
  unfold mkHexPlaneSpec
  rw [if_pos hw]

/-- Witness for C6 amended at `hexWidth = -1`. -/
theorem claimC6_amended_witness :
    (-1 : ℚ) ≤ 0 ∧
      (mkHexPlane (-1) =
          ⟨-1, 2 * IROOT3 * -1, ROOT3 / 2 * -1, getVertexVectors (-1),
            getBoundingBox (-1)⟩ ∧
        mkHexPlaneSpec (-1) = none) :=
  ⟨by norm_num, claimC6_amended (-1) (by norm_num)⟩

/-! ## C7: the concrete forward-map scenario -/

/-- C7 counterexample: the plane's `rowSeparation` at `hexWidth = 2` is
the rational `1.73205`, which is not `√3` exactly. -/
theorem claimC7_counterexample :
    ((mkHexPlane 2).rowSeparation : ℝ) ≠ Real.sqrt 3 := by
  have hval : (mkHexPlane 2).rowSeparation = 1.73205 := by
    norm_num [mkHexPlane, ROOT3]
  rw [hval]
  intro h
  have h2 : ((1.73205 : ℚ) : ℝ) ^ 2 = 3 := by
    rw [h, sq]
    exact Real.mul_self_sqrt (by norm_num)
  norm_num at h2

/-- C7 amended: with `hexWidth = 2`, `center` sends (0,0) to (0,0),
(1,0) to (2,0) and (0,1) to (1, rowSeparation), where `rowSeparation`
is the code's `1.73205` (`√3` only to six digits); in general
`center` computes `x = (q + r/2) * hexWidth` and
`y = r * (ROOT3/2 * hexWidth)`. -/
theorem claimC7_amended :
    (∀ (w : ℚ) (h : Hex),
        center (mkHexPlane w) h =
          ⟨((h.q : ℚ) + (h.r : ℚ) / 2) * w, (h.r : ℚ) * (ROOT3 / 2 * w)⟩) ∧
      center (mkHexPlane 2) ⟨0, 0⟩ = ⟨0, 0⟩ ∧
      center (mkHexPlane 2) ⟨1, 0⟩ = ⟨2, 0⟩ ∧
      center (mkHexPlane 2) ⟨0, 1⟩ = ⟨1, (mkHexPlane 2).rowSeparation⟩ ∧
      (mkHexPlane 2).rowSeparation = 1.73205 := by
  refine ⟨fun w h => rfl, ?_, ?_, ?_, ?_⟩ <;>
    simp [center, mkHexPlane, Point.mk.injEq, ROOT3]

/-! ## C8: vertex offsets and translation invariance -/

/-- C8: for every plane width and every hex, the six vertices minus the
hex's center reproduce the six fixed offset vectors (with `a = w/2`,
`b = IROOT3/2 * w`, the code's rational for `hexWidth/(2√3)`), clockwise
from northeast: NE, SE, S, SW, NW, N — independent of the hex. -/
theorem claimC8_vertex_offsets (w : ℚ) (h : Hex) :
    (vertices (mkHexPlane w) h).map
        (fun p =>
          (p.x - (center (mkHexPlane w) h).x, p.y - (center (mkHexPlane w) h).y)) =
      [(w / 2, -(IROOT3 / 2 * w)), (w / 2, IROOT3 / 2 * w),
       (0, 2 * (IROOT3 / 2 * w)), (-(w / 2), IROOT3 / 2 * w),
       (-(w / 2), -(IROOT3 / 2 * w)), (0, -(2 * (IROOT3 / 2 * w)))] := by
  simp [vertices, mkHexPlane, getVertexVectors, Point.add, center, Prod.mk.injEq]

end HexCrawl

namespace HexCrawl

/-! ## C10: `getVisible` emits no duplicate hexes -/

/-- Shifting the numerator of a ceiling of halves by an even integer
shifts the ceiling accordingly. -/
lemma ceil_half_add_two_mul (m : ℤ) (a : ℕ) :
    ⌈((m + 2 * (a : ℤ) : ℤ) : ℚ) / 2⌉ = ⌈((m : ℤ) : ℚ) / 2⌉ + (a : ℤ) := by
  have : ((m + 2 * (a : ℤ) : ℤ) : ℚ) / 2 = (m : ℚ) / 2 + ((a : ℤ) : ℚ) := by
    push_cast
    ring
  rw [this, Int.ceil_add_int]

/-- The map from loop indices to emitted hexes is injective. -/
lemma hexOfSlice_loop_injective (iMin jMin : ℤ) :
    Function.Injective fun ab : ℕ × ℕ =>
      hexOfSlice (iMin + 2 * (ab.1 : ℤ)) (jMin + (ab.2 : ℤ)) := by
  rintro ⟨a, b⟩ ⟨a', b'⟩ heq
  simp only [hexOfSlice, Hex.mk.injEq] at heq
  obtain ⟨hq, hr⟩ := heq
  have hb : b = b' := by omega
  subst hb
  have e1 : iMin + 2 * (a : ℤ) - (jMin + (b : ℤ)) =
      (iMin - (jMin + (b : ℤ))) + 2 * (a : ℤ) := by ring
  have e2 : iMin + 2 * (a' : ℤ) - (jMin + (b : ℤ)) =
      (iMin - (jMin + (b : ℤ))) + 2 * (a' : ℤ) := by ring
  rw [e1, ceil_half_add_two_mul] at hq
  rw [e2, ceil_half_add_two_mul] at hq
  have : a = a' := by omega
  subst this
  rfl

/-- C10: for every plane and every rectangle, the list returned by
`getVisible` contains no duplicate hexes: distinct loop steps emit
hexes differing in `q` or in `r`. -/
theorem claimC10_nodup (P : HexPlane) (r : Rectangle) :
    (getVisible P r).Nodup := by
  unfold getVisible
  exact List.Nodup.map (hexOfSlice_loop_injective _ _)
    (List.Nodup.product (List.nodup_range _) (List.nodup_range _))

end HexCrawl

namespace HexCrawl

/-! ## C2 and C1: the rounding comparison slip and the broken round trip -/

/-- Closed-form evaluation of `jsRound`. -/
lemma jsRound_eq (x : ℚ) (n : ℤ) (h1 : (n : ℚ) ≤ x + 1/2) (h2 : x + 1/2 < (n : ℚ) + 1) :
    jsRound x = n := by
  unfold jsRound
  rw [Int.floor_eq_iff]
  exact ⟨h1, h2⟩

/-- C2: at the fractional input (52/5, 3/10) the roundings are
(10, 0, -11); `q`'s own rounding error 2/5 is strictly larger than both
`r`'s own error 3/10 and `s`'s error 3/10, so by the claim `rq` would be
discarded and recomputed — but the code (whose `dr` compares `rr`
against the fractional `q`) recomputes `rr` instead, returning the cube
triple (10, 1, -11). -/
theorem claimC2_code_eval :
    roundHexCube (52/5) (3/10) = (10, 1, -11) ∧
      jsRound (52/5) = 10 ∧ jsRound (3/10) = 0 ∧
      jsRound (-(52/5 : ℚ) - 3/10) = -11 ∧
      |((10 : ℤ) : ℚ) - 52/5| > |((0 : ℤ) : ℚ) - 3/10| ∧
      |((10 : ℤ) : ℚ) - 52/5| > |((-11 : ℤ) : ℚ) - (-(52/5 : ℚ) - 3/10)| := by
  have h1 : jsRound (52/5 : ℚ) = 10 := jsRound_eq _ _ (by norm_num) (by norm_num)
  have h2 : jsRound (3/10 : ℚ) = 0 := jsRound_eq _ _ (by norm_num) (by norm_num)
  have h3 : jsRound (-(52/5 : ℚ) - 3/10) = -11 :=
    jsRound_eq _ _ (by norm_num) (by norm_num)
  have e1 : |((10 : ℤ) : ℚ) - 52/5| = 2/5 := by
    rw [abs_of_nonpos (by norm_num)]
    norm_num
  have e2 : |((0 : ℤ) : ℚ) - 52/5| = 52/5 := by
    rw [abs_of_nonpos (by norm_num)]
    norm_num
  have e3 : |((-11 : ℤ) : ℚ) - (-(52/5 : ℚ) - 3/10)| = 3/10 := by
    rw [abs_of_nonpos (by norm_num)]
    norm_num
  have e4 : |((0 : ℤ) : ℚ) - 3/10| = 3/10 := by
    rw [abs_of_nonpos (by norm_num)]
    norm_num
  refine ⟨?_, h1, h2, h3, ?_, ?_⟩
  · rw [roundHexCube_eval _ _ _ _ _ h1 h2 h3, e1, e2, e3,
      if_neg (by norm_num), if_pos (by norm_num)]
    norm_num
  · rw [e1, e4]
    norm_num
  · rw [e1, e3]
    norm_num

/-- C1: the round trip fails at `Hex(0, 1)` (with `hexWidth = 2`):
`hex(center(Hex(0,1)))` evaluates to `Hex(0, 0)`, not `Hex(0, 1)`. -/
theorem claimC1_code_eval :
    hexAt (mkHexPlane 2) (center (mkHexPlane 2) ⟨0, 1⟩) = ⟨0, 0⟩ ∧
      (⟨0, 0⟩ : Hex) ≠ ⟨0, 1⟩ := by
  have hc : center (mkHexPlane 2) ⟨0, 1⟩ = ⟨1, 1.73205⟩ := by
    simp [center, mkHexPlane, Point.mk.injEq, ROOT3]
  have key : hexAt (mkHexPlane 2) ⟨1, 1.73205⟩ =
      roundHex (133333209/400000000) (133333209/400000000) := by
    unfold hexAt
    norm_num [mkHexPlane, IROOT3, ROOT3]
  have hA : jsRound (133333209/400000000 : ℚ) = 0 :=
    jsRound_eq _ _ (by norm_num) (by norm_num)
  have hB : jsRound (-(133333209/400000000 : ℚ) - 133333209/400000000) = -1 :=
    jsRound_eq _ _ (by norm_num) (by norm_num)
  have f1 : |((0 : ℤ) : ℚ) - 133333209/400000000| = 133333209/400000000 := by
    rw [abs_of_nonpos (by norm_num)]
    norm_num
  have f2 : |((-1 : ℤ) : ℚ) -
      (-(133333209/400000000 : ℚ) - 133333209/400000000)| = 133333582/400000000 := by
    rw [abs_of_nonpos (by norm_num)]
    norm_num
  refine ⟨?_, by decide⟩
  rw [hc, key]
  unfold roundHex
  rw [roundHexCube_eval _ _ _ _ _ hA hA hB, f1, f2,
    if_neg (by norm_num), if_neg (by norm_num)]

end HexCrawl


namespace HexCrawl

/-! ## C4: `getVisible` soundness -/

/-- Ceiling of an even integer halved. -/
lemma ceil_two_mul (m : ℤ) : ⌈((2 * m : ℤ) : ℚ) / 2⌉ = m := by
  have e : ((2 * m : ℤ) : ℚ) / 2 = ((m : ℤ) : ℚ) := by
    push_cast
    ring
  rw [e, Int.ceil_intCast]

/-- Ceiling of an odd integer halved rounds up. -/
lemma ceil_two_mul_sub_one (m : ℤ) : ⌈((2 * m - 1 : ℤ) : ℚ) / 2⌉ = m := by
  rw [Int.ceil_eq_iff]
  constructor
  · push_cast
    linarith
  · push_cast
    linarith

/-- Every in-range loop index pair contributes its hex to `getVisible`. -/
lemma mem_getVisible_of (P : HexPlane) (r : Rectangle) (a b : ℕ)
    (ha : a < ((iMaxFix (gvIMin P r) (gvIMax P r) - gvIMin P r).fdiv 2 + 1).toNat)
    (hb : b < (gvJMax P r + 1 - gvJMin P r + 1).toNat) :
    hexOfSlice (gvIMin P r + 2 * (a : ℤ)) (gvJMin P r + (b : ℤ)) ∈ getVisible P r := by
  unfold getVisible
  exact List.mem_map.mpr
    ⟨(a, b), List.mem_product.mpr ⟨List.mem_range.mpr ha, List.mem_range.mpr hb⟩, rfl⟩

/-- Case split on the `iMax` correction. -/
lemma iMaxFix_cases (iMin iMax : ℤ) :
    (iMax - jsRem2 iMin = 0 ∧ iMaxFix iMin iMax = iMax) ∨
      (iMax - jsRem2 iMin ≠ 0 ∧ iMaxFix iMin iMax = iMax + 1) := by
  unfold iMaxFix
  split_ifs with hc
  · exact Or.inl ⟨hc, rfl⟩
  · exact Or.inr ⟨hc, rfl⟩

/-- C4 amended: for every positive plane width, every rectangle with
non-negative width and height, and every hex with row `0 ≤ r ≤ 100000`,
if the hex's bounding box strictly overlaps the rectangle then the hex
appears in `getVisible`.  (The row restriction is forced by the
truncated `√3` constants: rows `r < 0` can be missed in a thin sliver
at the rectangle's top edge — see the counterexample — and rows beyond
roughly `7·10^5` would lose the bottom-edge margin.) -/
theorem claimC4_amended_sound (w : ℚ) (hw : 0 < w) (R : Rectangle)
    (_hRw : 0 ≤ R.w) (_hRh : 0 ≤ R.h) (h : Hex) (hr0 : 0 ≤ h.r) (hr1 : h.r ≤ 100000)
    (hov : rectOverlap (boundingBox (mkHexPlane w) h) R) :
    h ∈ getVisible (mkHexPlane w) R := by
  obtain ⟨q, r⟩ := h
  simp only [rectOverlap, boundingBox, Rectangle.offset, mkHexPlane, getBoundingBox,
    center] at hov
  obtain ⟨o1, o2, o3, o4⟩ := hov
  simp only at hr0 hr1
  have hr0' : (0 : ℚ) ≤ (r : ℚ) := by exact_mod_cast hr0
  have hr1' : ((r : ℚ)) ≤ 100000 := by exact_mod_cast hr1
  have hW : (mkHexPlane w).hexWidth = w := rfl
  set n : ℤ := 2 * q + r with hn
  -- x-direction bounds
  have F1 : gvIMin (mkHexPlane w) R ≤ n := by
    have key : 2 * R.x / w < ((n + 1 : ℤ) : ℚ) := by
      rw [div_lt_iff₀ hw]
      push_cast [hn]
      nlinarith [o2]
    have hfl := Int.floor_lt.mpr key
    unfold gvIMin
    rw [hW]
    omega
  have F2 : n - 1 ≤ gvIMax (mkHexPlane w) R := by
    have key : ((n - 1 : ℤ) : ℚ) ≤ 2 * (R.x + R.w) / w := by
      rw [le_div_iff₀ hw]
      push_cast [hn]
      nlinarith [o1]
    unfold gvIMax
    rw [hW]
    exact Int.le_floor.mpr key
  -- y-direction bounds
  have F3 : gvJMin (mkHexPlane w) R ≤ r := by
    have o4' : R.y < (r : ℚ) * (ROOT3 / 2 * w) + IROOT3 * w := by linarith
    have key : 1/3 + 2 * R.y * IROOT3 / w < ((r + 1 : ℤ) : ℚ) := by
      have h4 : 2 * IROOT3 * R.y <
          2 * IROOT3 * ((r : ℚ) * (ROOT3 / 2 * w) + IROOT3 * w) :=
        mul_lt_mul_of_pos_left o4' (by norm_num [IROOT3])
      have hdl : 2 * R.y * IROOT3 / w < (r : ℚ) + 2/3 := by
        rw [div_lt_iff₀ hw]
        have hcst : (2 * IROOT3 * ((r : ℚ) * (ROOT3 / 2 * w) + IROOT3 * w)) ≤
            ((r : ℚ) + 2/3) * w := by
          have expand : 2 * IROOT3 * ((r : ℚ) * (ROOT3 / 2 * w) + IROOT3 * w) =
              ((r : ℚ) * (IROOT3 * ROOT3) + 2 * (IROOT3 * IROOT3)) * w := by
            ring
          rw [expand]
          have coeff : (0 : ℚ) ≤
              (((r : ℚ) + 2/3) - ((r : ℚ) * (IROOT3 * ROOT3) + 2 * (IROOT3 * IROOT3))) := by
            have e : ((r : ℚ) + 2/3) - ((r : ℚ) * (IROOT3 * ROOT3) + 2 * (IROOT3 * IROOT3)) =
                (r : ℚ) * (373/400000000) + 373/600000000 := by
              norm_num [IROOT3, ROOT3]
              ring
            rw [e]
            have := mul_nonneg hr0' (show (0:ℚ) ≤ 373/400000000 by norm_num)
            linarith
          nlinarith [mul_nonneg coeff hw.le]
        calc 2 * R.y * IROOT3 = 2 * IROOT3 * R.y := by ring
          _ < _ := h4
          _ ≤ ((r : ℚ) + 2/3) * w := hcst
      push_cast
      linarith
    have hfl := Int.floor_lt.mpr key
    unfold gvJMin
    rw [hW]
    omega
  have F4 : r ≤ gvJMax (mkHexPlane w) R + 1 := by
    have o3' : (r : ℚ) * (ROOT3 / 2 * w) - IROOT3 * w < R.y + R.h := by linarith
    have key : ((r - 1 : ℤ) : ℚ) ≤ 1/3 + 2 * (R.y + R.h) * IROOT3 / w := by
      have h3 : 2 * IROOT3 * ((r : ℚ) * (ROOT3 / 2 * w) - IROOT3 * w) <
          2 * IROOT3 * (R.y + R.h) :=
        mul_lt_mul_of_pos_left o3' (by norm_num [IROOT3])
      have hdl : (r : ℚ) - 4/3 ≤ 2 * (R.y + R.h) * IROOT3 / w := by
        rw [le_div_iff₀ hw]
        have expand : 2 * IROOT3 * ((r : ℚ) * (ROOT3 / 2 * w) - IROOT3 * w) =
            ((r : ℚ) * (IROOT3 * ROOT3) - 2 * (IROOT3 * IROOT3)) * w := by
          ring
        have coeff : (0 : ℚ) ≤
            (((r : ℚ) * (IROOT3 * ROOT3) - 2 * (IROOT3 * IROOT3)) - ((r : ℚ) - 4/3)) := by
          have e : (((r : ℚ) * (IROOT3 * ROOT3) - 2 * (IROOT3 * IROOT3)) - ((r : ℚ) - 4/3)) =
              400000373/600000000 - (r : ℚ) * (373/400000000) := by
            norm_num [IROOT3, ROOT3]
            ring
          rw [e]
          linarith
        have hcst : ((r : ℚ) - 4/3) * w ≤
            ((r : ℚ) * (IROOT3 * ROOT3) - 2 * (IROOT3 * IROOT3)) * w := by
          nlinarith [mul_nonneg coeff hw.le]
        exact le_of_lt
          (calc ((r : ℚ) - 4/3) * w ≤
              ((r : ℚ) * (IROOT3 * ROOT3) - 2 * (IROOT3 * IROOT3)) * w := hcst
            _ = 2 * IROOT3 * ((r : ℚ) * (ROOT3 / 2 * w) - IROOT3 * w) := by rw [expand]
            _ < 2 * IROOT3 * (R.y + R.h) := h3
            _ = 2 * (R.y + R.h) * IROOT3 := by ring)
      push_cast
      linarith
    unfold gvJMax
    rw [hW]
    have hfl := Int.le_floor.mpr key
    omega
  -- assemble the loop indices
  set im := gvIMin (mkHexPlane w) R with him
  set iM0 := gvIMax (mkHexPlane w) R with hiM0
  set jm := gvJMin (mkHexPlane w) R with hjm
  set jM0 := gvJMax (mkHexPlane w) R with hjM0
  have hrem := jsRem2_cases im
  have hfix := iMaxFix_cases im iM0
  have hfd : (iMaxFix im iM0 - im).fdiv 2 = (iMaxFix im iM0 - im) / 2 :=
    Int.fdiv_eq_ediv _ (by norm_num)
  set istar := n - (n - im) % 2 with histar
  have histar_range : istar = n ∨ istar = n - 1 := by omega
  have histar_par : (istar - im) % 2 = 0 := by omega
  have histar_lb : im ≤ istar := by omega
  have histar_ub : istar ≤ iMaxFix im iM0 := by
    rcases hfix with ⟨hc, he⟩ | ⟨hc, he⟩ <;> omega
  obtain ⟨a, hia, ha⟩ : ∃ a : ℕ, im + 2 * (a : ℤ) = istar ∧
      a < ((iMaxFix im iM0 - im).fdiv 2 + 1).toNat := by
    refine ⟨((istar - im) / 2).toNat, ?_, ?_⟩ <;> omega
  obtain ⟨b, hib, hb⟩ : ∃ b : ℕ, jm + (b : ℤ) = r ∧
      b < (jM0 + 1 - jm + 1).toNat := by
    refine ⟨(r - jm).toNat, ?_, ?_⟩ <;> omega
  have hmem := mem_getVisible_of (mkHexPlane w) R a b ha hb
  rw [← him, ← hjm, hia, hib] at hmem
  have hslice : hexOfSlice istar r = ⟨q, r⟩ := by
    rcases histar_range with hcase | hcase
    · unfold hexOfSlice
      rw [show (istar - r : ℤ) = 2 * q by omega, ceil_two_mul]
    · unfold hexOfSlice
      rw [show (istar - r : ℤ) = 2 * q - 1 by omega, ceil_two_mul_sub_one]
  rwa [hslice] at hmem

/-- C4 counterexample: with `hexWidth = 2`, the bounding box of
`Hex(0, -10)` strictly overlaps the rectangle
`(-11, -16.16581, 1, 1)` (the box's bottom edge sits at
`y = -16.16580`), yet `getVisible` never emits row `-10`: its `jMin`
lands at `-9` because `1/3 + 2 * y * IROOT3 / w` with the truncated
constants falls just above `-9`. -/
theorem claimC4_counterexample :
    rectOverlap (boundingBox (mkHexPlane 2) ⟨0, -10⟩) ⟨-11, -1616581/100000, 1, 1⟩ ∧
      (0 : ℚ) ≤ (1 : ℚ) ∧
      (⟨0, -10⟩ : Hex) ∉ getVisible (mkHexPlane 2) ⟨-11, -1616581/100000, 1, 1⟩ := by
  refine ⟨?_, by norm_num, ?_⟩
  · unfold rectOverlap boundingBox Rectangle.offset mkHexPlane getBoundingBox center
    norm_num [IROOT3, ROOT3]
  · intro hmem
    unfold getVisible at hmem
    rw [List.mem_map] at hmem
    obtain ⟨ab, hab, heq⟩ := hmem
    have hj := congrArg Hex.r heq
    have hjMin : gvJMin (mkHexPlane 2) ⟨-11, -1616581/100000, 1, 1⟩ = -9 := by
      unfold gvJMin
      rw [Int.floor_eq_iff]
      constructor
      · norm_num [mkHexPlane, IROOT3]
      · norm_num [mkHexPlane, IROOT3]
    unfold hexOfSlice at hj
    simp only at hj
    rw [hjMin] at hj
    omega

/-- Witness for C4 amended: `hexWidth = 2`, the unit hex at the origin
and the rectangle `(-1, -1, 2, 2)` overlapping it. -/
theorem claimC4_amended_sound_witness :
    (0 : ℚ) < 2 ∧ rectOverlap (boundingBox (mkHexPlane 2) ⟨0, 0⟩) ⟨-1, -1, 2, 2⟩ ∧
      (⟨0, 0⟩ : Hex) ∈ getVisible (mkHexPlane 2) ⟨-1, -1, 2, 2⟩ := by
  have hov : rectOverlap (boundingBox (mkHexPlane 2) ⟨0, 0⟩) ⟨-1, -1, 2, 2⟩ := by
    unfold rectOverlap boundingBox Rectangle.offset mkHexPlane getBoundingBox center
    norm_num [IROOT3, ROOT3]
  exact ⟨by norm_num, hov,
    claimC4_amended_sound 2 (by norm_num) ⟨-1, -1, 2, 2⟩ (by norm_num) (by norm_num)
      ⟨0, 0⟩ (by decide) (by decide) hov⟩

end HexCrawl
